import Mathlib

/-!
Shallow embedding of `src/src/pub/PackBuffer.hpp` (namespace `buffers`, class
`buffers::PackBuffer`).  Machine-arithmetic conventions: the build target is a
little-endian LP64 platform, so `size_t` is 64 bits wide, `uint32_t` is 32
bits wide, `sizeof(int) = 4` and `sizeof(size_t) = 8`; overflow is made
explicit with `% 2 ^ 64` / `% 2 ^ 32` exactly where the C++ operates on those
types.  A trivial value of type `T` is modelled by the list of its
`sizeof(T)` representation bytes.  The byte region behind the caller-supplied
buffer pointer is carried inside the context (`mem`); the write pointer
`p_msg_` always equals `base + msg_size_` in the source, so it is kept
implicit and writes land at index `msg_size`.  A thrown `std::out_of_range`
is modelled by `Except.error` (the `__cpp_exceptions` build).
-/

namespace PackBuffer

/-- `size_t` arithmetic wraps modulo `2 ^ 64`. -/
def size_t_mod : Nat := 2 ^ 64

/-- `uint32_t` arithmetic wraps modulo `2 ^ 32`. -/
def u32_mod : Nat := 2 ^ 32

/-- `PackBuffer::Context`: the fields `buf_size_` (total capacity),
`msg_size_` (current write offset), `alignment_` (the alignment quantum,
already `static_cast<uint32_t>`), together with the bytes of the
caller-supplied region that `p_msg_` points into. -/
structure Context where
  buf_size : Nat
  msg_size : Nat
  alignment : Nat
  mem : List Nat
deriving DecidableEq

/-- `Context::getAlignedSize`: `kNumChunks = _size / q + (_size % q == 0 ? 0 : 1)`
is stored into a `uint32_t`, and the product `kNumChunks * kAlignedMemChunk`
is computed in `uint32_t` arithmetic, hence the two `% 2 ^ 32`. -/
def Context.getAlignedSize (c : Context) (sz : Nat) : Nat :=
  let kAlignedMemChunk := c.alignment
  let kNumChunks := (sz / kAlignedMemChunk + (if sz % kAlignedMemChunk = 0 then 0 else 1)) % u32_mod
  (kNumChunks * kAlignedMemChunk) % u32_mod

/-- `Context::buffer_size()` returns `buf_size_ - msg_size_` in `size_t`
arithmetic (wrapping subtraction). -/
def Context.buffer_size (c : Context) : Nat :=
  (c.buf_size + (size_t_mod - c.msg_size % size_t_mod)) % size_t_mod

/-- `Context::operator+=`: throws `std::out_of_range` when
`buf_size_ < msg_size_ + _size` (the sum computed in `size_t`), otherwise
advances `p_msg_` and `msg_size_` by the aligned size. -/
def Context.addAssign (c : Context) (sz : Nat) : Except String Context :=
  if c.buf_size < (c.msg_size + sz) % size_t_mod then
    .error "Acquire more memory than is available !!"
  else
    let kAlignedSize := c.getAlignedSize sz
    .ok { c with msg_size := (c.msg_size + kAlignedSize) % size_t_mod }

/-- `Context::operator-=`: throws `std::out_of_range` when
`msg_size_ < _size`, otherwise retreats `p_msg_` and `msg_size_` by the
aligned size (wrapping `size_t` subtraction). -/
def Context.subAssign (c : Context) (sz : Nat) : Except String Context :=
  if c.msg_size < sz then
    .error "Release more memory than was originally !!"
  else
    let kAlignedSize := c.getAlignedSize sz
    .ok { c with msg_size := (c.msg_size + (size_t_mod - kAlignedSize)) % size_t_mod }

/-- Overwrite `bs` into `mem` starting at byte index `pos`
(`std::copy(src, src + len, dst)` with `dst = base + pos`). -/
def writeBytes (mem : List Nat) (pos : Nat) (bs : List Nat) : List Nat :=
  mem.take pos ++ bs ++ mem.drop (pos + bs.length)

/-- Read `len` bytes of `mem` starting at byte index `pos`. -/
def readBytes (mem : List Nat) (pos len : Nat) : List Nat :=
  (mem.drop pos).take len

/-- The 8 little-endian representation bytes of a `size_t` value. -/
def size_t_bytes (n : Nat) : List Nat :=
  [n % 256, n / 256 % 256, n / 256 ^ 2 % 256, n / 256 ^ 3 % 256,
   n / 256 ^ 4 % 256, n / 256 ^ 5 % 256, n / 256 ^ 6 % 256, n / 256 ^ 7 % 256]

/-- `DelegatePackBuffer<T>::getTypeSize()` for trivial `T` returns
`sizeof(T)`; a value is modelled by its `sizeof(T)` representation bytes, so
`sizeof(T)` is the length of that list. -/
def getTypeSizeTrivial (bs : List Nat) : Nat := bs.length

/-- `DelegatePackBuffer<char*>::getTypeSize(str)` = `strlen(str) + 1`;
`content` holds the bytes strictly before the terminator (no interior NUL). -/
def getTypeSizeCString (content : List Nat) : Nat := content.length + 1

/-- `DelegatePackBuffer<T>::getTypeSize(const T (&)[dataLen])` returns
`sizeof(_buffer)`, i.e. `sizeof(T) * dataLen`.  This overload is well-formed;
the matching array `put` overload is not: its body reads `_ctx.size()` and
`_ctx.data()`, members `Context` does not declare, so instantiating it fails
to compile, and the facade routes `char` arrays to the `char*` strategy
instead (`PackBuffer::put(const char (&)[dataLen])`), so the array `put` is
not embedded here. -/
def getTypeSizeArray (sizeofT dataLen : Nat) : Nat := sizeofT * dataLen

/-- `DelegatePackBuffer<T>::getTypeSize(const T*, size_t)` =
`sizeof(size_t) + sizeof(T) * dataLen`. -/
def getTypeSizePtr (sizeofT dataLen : Nat) : Nat := 8 + sizeofT * dataLen

/-- `DelegatePackBuffer<std::vector<T>>::getTypeSize` for trivial `T`
(closed form): `sizeof(_vec.size()) + sizeof(T) * _vec.size()`. -/
def getTypeSizeVectorTrivial (sizeofT n : Nat) : Nat := 8 + sizeofT * n

/-- `DelegatePackBuffer<std::vector<T>>::getTypeSize` for non-trivial `T`
(recursive form): starts at `sizeof(_vec.size())` and adds each element's own
`getTypeSize`; `elemSizes` lists those per-element computed sizes. -/
def getTypeSizeVectorRecursive (elemSizes : List Nat) : Nat :=
  elemSizes.foldl (fun acc s => acc + s) 8

/-- `DelegatePackBuffer<std::list<T>>::getTypeSize` for trivial `T`:
`sizeof(_lst.size()) + sizeof(T) * _lst.size()`. -/
def getTypeSizeListTrivial (sizeofT n : Nat) : Nat := 8 + sizeofT * n

/-- `DelegatePackBuffer<std::map<K,V>>::getTypeSize` trivial branch (closed
form): `sizeof(_mp.size()) + (sizeof(K) + sizeof(V)) * _mp.size()`.  (In the
source this overload mistakenly takes `std::unordered_map`, a copy-paste slip
from the `unordered_map` specialization; its body is as modelled.) -/
def getTypeSizeMapTrivialForm (sK sV n : Nat) : Nat := 8 + (sK + sV) * n

/-- `DelegatePackBuffer<std::map<K,V>>::getTypeSize` recursive branch: starts
at `sizeof(_mp.size())` and adds each entry's key size and value size;
`entrySizes` lists those per-entry computed sizes. -/
def getTypeSizeMapRecursive (entrySizes : List (Nat × Nat)) : Nat :=
  entrySizes.foldl (fun acc p => acc + p.1 + p.2) 8

/-- `DelegatePackBuffer<T>::put(ctx, t)` for trivial `T`: if
`getTypeSize() <= ctx.buffer_size()`, copy the `sizeof(T)` representation
bytes to the write position and advance the context by `sizeof(T)`. -/
def putTrivial (bs : List Nat) (c : Context) : Except String (Bool × Context) :=
  if getTypeSizeTrivial bs ≤ c.buffer_size then do
    let c2 ← Context.addAssign { c with mem := writeBytes c.mem c.msg_size bs } bs.length
    pure (true, c2)
  else
    pure (false, c)

/-- `DelegatePackBuffer<char*>::put`: `nullptr` (modelled `none`) yields
`false` untouched; otherwise copy `strlen + 1` bytes (content plus the
terminator) and advance by that length when it fits. -/
def putCString (str : Option (List Nat)) (c : Context) : Except String (Bool × Context) :=
  match str with
  | none => pure (false, c)
  | some content =>
    if getTypeSizeCString content ≤ c.buffer_size then do
      let c2 ← Context.addAssign
        { c with mem := writeBytes c.mem c.msg_size (content ++ [0]) }
        (getTypeSizeCString content)
      pure (true, c2)
    else
      pure (false, c)

/-- `DelegatePackBuffer<T>::put(ctx, const T*, size_t)`: a null `_buffer`
(modelled `none`) short-circuits the guard to `false`; otherwise guard on
`getTypeSize(_buffer, _dataLen)`, pack the length through the `size_t`
delegate (result ignored), raw-copy the element bytes and advance by
`sizeof(T) * dataLen`. -/
def putPtr (sizeofT : Nat) (buf : Option (List Nat)) (dataLen : Nat) (c : Context) :
    Except String (Bool × Context) :=
  match buf with
  | none => pure (false, c)
  | some bytes =>
    if getTypeSizePtr sizeofT dataLen ≤ c.buffer_size then do
      let (_, c1) ← putTrivial (size_t_bytes dataLen) c
      let c3 ← Context.addAssign
        { c1 with mem := writeBytes c1.mem c1.msg_size bytes } (sizeofT * dataLen)
      pure (true, c3)
    else
      pure (false, c)

/-- `DelegatePackBuffer<std::vector<T>>::put` instantiated at a trivial
element type `T`: empty vector yields `false` untouched; otherwise guard on
the closed-form `getTypeSize`, pack the element count through the `size_t`
delegate (result ignored), raw-copy all element bytes in one block and
advance once by `_vec.size() * sizeof(T)`. -/
def putVector (sizeofT : Nat) (elems : List (List Nat)) (c : Context) :
    Except String (Bool × Context) :=
  if elems.length > 0 then
    if getTypeSizeVectorTrivial sizeofT elems.length ≤ c.buffer_size then do
      let (_, c1) ← putTrivial (size_t_bytes elems.length) c
      let c3 ← Context.addAssign
        { c1 with mem := writeBytes c1.mem c1.msg_size elems.flatten } (elems.length * sizeofT)
      pure (true, c3)
    else
      pure (false, c)
  else
    pure (false, c)

/-- `DelegatePackBuffer<std::list<T>>::put` instantiated at a trivial element
type `T`: empty list yields `false` untouched; otherwise guard on the
closed-form `getTypeSize`, pack the element count, then pack every element
through its own delegate, each element's result ignored. -/
def putList (sizeofT : Nat) (elems : List (List Nat)) (c : Context) :
    Except String (Bool × Context) :=
  if elems.length > 0 then
    if getTypeSizeListTrivial sizeofT elems.length ≤ c.buffer_size then do
      let (_, c1) ← putTrivial (size_t_bytes elems.length) c
      let c2 ← elems.foldlM (fun cc bs => do
        let (_, cc2) ← putTrivial bs cc
        pure cc2) c1
      pure (true, c2)
    else
      pure (false, c)
  else
    pure (false, c)

/-- `DelegatePackBuffer<std::map<K,V>>::put` instantiated at scalar key and
value types: empty map yields `false` untouched; otherwise guard on
`getTypeSize(_mp)` (the recursive branch — the trivial branch's parameter
type is the copy-paste slip noted at `getTypeSizeMapTrivialForm`, and both
branches agree on the value), pack the entry count, then pack each entry's
key and value through their delegates, results ignored. -/
def putMap (entries : List (List Nat × List Nat)) (c : Context) :
    Except String (Bool × Context) :=
  if entries.length > 0 then
    if getTypeSizeMapRecursive (entries.map fun pr => (pr.1.length, pr.2.length)) ≤ c.buffer_size then do
      let (_, c1) ← putTrivial (size_t_bytes entries.length) c
      let c2 ← entries.foldlM (fun cc pr => do
        let (_, cc1) ← putTrivial pr.1 cc
        let (_, cc2) ← putTrivial pr.2 cc1
        pure cc2) c1
      pure (true, c2)
    else
      pure (false, c)
  else
    pure (false, c)

/-- `PackBuffer::reset()`: `context_ -= context_.msg_size_`. -/
def reset (c : Context) : Except String Context :=
  c.subAssign c.msg_size

/-- `PackBuffer::getDataSize()` returns `context_.msg_size_`. -/
def getDataSize (c : Context) : Nat := c.msg_size

/-- `PackBuffer::getBufferSize()` returns `context_.buffer_size()`. -/
def getBufferSize (c : Context) : Nat := c.buffer_size

/-- The `PackBuffer(pMsg, size, alignment)` constructor: offset starts at 0
over a caller-supplied region of `size` bytes (taken zero-initialized). -/
def freshContext (size q : Nat) : Context :=
  { buf_size := size, msg_size := 0, alignment := q, mem := List.replicate size 0 }

/-- Modelled from the spec: `AlignMemory.hpp` is not under `src/`.  The spec
(sections 2 and 4.2) describes the alignment quantum as "a fixed power-of-two
byte count", and the source casts it with `static_cast<uint32_t>`, so the
quantum is a power of two representable in 32 bits. -/
def IsAlignQuantum (q : Nat) : Prop := ∃ k, k ≤ 32 ∧ q = 2 ^ k

/-- One facade-level operation on a `PackBuffer` (the `put` overloads that the
embedding instantiates, plus `reset`). -/
inductive Op where
  | opScalar (bs : List Nat)
  | opCString (s : Option (List Nat))
  | opPtr (sizeofT : Nat) (buf : Option (List Nat)) (dataLen : Nat)
  | opVector (sizeofT : Nat) (elems : List (List Nat))
  | opList (sizeofT : Nat) (elems : List (List Nat))
  | opMap (entries : List (List Nat × List Nat))
  | opReset

/-- Run one operation against the buffer context; the caller-visible `bool`
result of `put` does not influence how the facade threads its state. -/
def applyOp (op : Op) (c : Context) : Except String Context :=
  match op with
  | .opScalar bs => do let (_, c2) ← putTrivial bs c; pure c2
  | .opCString s => do let (_, c2) ← putCString s c; pure c2
  | .opPtr s b n => do let (_, c2) ← putPtr s b n c; pure c2
  | .opVector s es => do let (_, c2) ← putVector s es c; pure c2
  | .opList s es => do let (_, c2) ← putList s es c; pure c2
  | .opMap es => do let (_, c2) ← putMap es c; pure c2
  | .opReset => reset c

/-- Run a sequence of operations, threading the context. -/
def runOps (ops : List Op) (c : Context) : Except String Context :=
  ops.foldlM (fun cc op => applyOp op cc) c

/-- The content bytes of the C string `"hello"`. -/
def helloBytes : List Nat := [104, 101, 108, 108, 111]

/-- The section-8 scenario of the spec, capacity 16 and quantum 4: pack
`int32` 7, `int32` 9, the C string `"hello"`, then one more `int32`,
recording each `put`'s result and `getDataSize()` afterwards. -/
def scenario16 : Except String ((Bool × Nat) × (Bool × Nat) × (Bool × Nat) × (Bool × Nat)) := do
  let c0 := freshContext 16 4
  let (b1, c1) ← putTrivial [7, 0, 0, 0] c0
  let (b2, c2) ← putTrivial [9, 0, 0, 0] c1
  let (b3, c3) ← putCString (some helloBytes) c2
  let (b4, c4) ← putTrivial [1, 0, 0, 0] c3
  pure ((b1, getDataSize c1), (b2, getDataSize c2), (b3, getDataSize c3), (b4, getDataSize c4))

/-- A capacity-6, quantum-4 buffer: pack an `int32`, then an `int16`,
recording each `put`'s result, the offset afterwards, and whether the cursor
invariant `offset <= capacity` still holds at the end. -/
def scenario6 : Except String ((Bool × Nat) × (Bool × Nat) × Bool) := do
  let c0 := freshContext 6 4
  let (b1, c1) ← putTrivial [7, 0, 0, 0] c0
  let (b2, c2) ← putTrivial [1, 0] c1
  pure ((b1, getDataSize c1), (b2, getDataSize c2), decide (c2.msg_size ≤ c2.buf_size))

end PackBuffer

namespace PackBuffer

/-! Monad-unfolding helpers for `Except`. -/

@[simp]
theorem except_bind_ok {α β : Type} (a : α) (f : α → Except String β) :
    (Except.ok a >>= f) = f a := rfl

@[simp]
theorem except_bind_error {α β : Type} (e : String) (f : α → Except String β) :
    ((Except.error e : Except String α) >>= f) = Except.error e := rfl

@[simp]
theorem except_pure_eq_ok {α : Type} (a : α) :
    (pure a : Except String α) = Except.ok a := rfl

/-- Unfolding `Context::operator+=` when the overflow check passes. -/
theorem addAssign_ok (c : Context) (sz : Nat)
    (h : ¬ c.buf_size < (c.msg_size + sz) % size_t_mod) :
    c.addAssign sz =
      .ok { c with msg_size := (c.msg_size + c.getAlignedSize sz) % size_t_mod } := by
  unfold Context.addAssign
  rw [if_neg h]

/-- Unfolding `Context::operator-=` when the underflow check passes. -/
theorem subAssign_ok (c : Context) (sz : Nat) (h : ¬ c.msg_size < sz) :
    c.subAssign sz =
      .ok { c with
            msg_size := (c.msg_size + (size_t_mod - c.getAlignedSize sz)) % size_t_mod } := by
  unfold Context.subAssign
  rw [if_neg h]

/-- In a well-formed state (`msg_size ≤ buf_size < 2 ^ 64`), `buffer_size()`
is the plain remaining capacity. -/
theorem buffer_size_eq (c : Context) (hb : c.buf_size < size_t_mod)
    (hm : c.msg_size ≤ c.buf_size) :
    c.buffer_size = c.buf_size - c.msg_size := by
  have hsz : size_t_mod = 18446744073709551616 := by norm_num [size_t_mod]
  unfold Context.buffer_size
  rw [hsz] at hb ⊢
  omega

/-- Unfolding the trivial-scalar `put` on a success path in a well-formed
state. -/
theorem putTrivial_ok_clean (bs : List Nat) (c : Context)
    (hfit : c.msg_size + bs.length ≤ c.buf_size) (hb : c.buf_size < size_t_mod) :
    putTrivial bs c = .ok (true,
      { c with mem := writeBytes c.mem c.msg_size bs,
               msg_size := (c.msg_size + c.getAlignedSize bs.length) % size_t_mod }) := by
  have hsz : size_t_mod = 18446744073709551616 := by norm_num [size_t_mod]
  have hb' : c.buf_size < 18446744073709551616 := by rw [hsz] at hb; exact hb
  have hguard : getTypeSizeTrivial bs ≤ c.buffer_size := by
    unfold getTypeSizeTrivial Context.buffer_size
    rw [hsz]
    omega
  have hadd : ¬ c.buf_size < (c.msg_size + bs.length) % size_t_mod := by
    rw [hsz]
    omega
  unfold putTrivial
  rw [if_pos hguard,
    addAssign_ok ⟨c.buf_size, c.msg_size, c.alignment, writeBytes c.mem c.msg_size bs⟩
      bs.length hadd]
  rfl

end PackBuffer

namespace PackBuffer

/-- The chunk count `n / q + (n % q == 0 ? 0 : 1)` is the ceiling
`(n + q - 1) / q`. -/
theorem chunks_eq_ceil (n q : Nat) (hq : 0 < q) :
    n / q + (if n % q = 0 then 0 else 1) = (n + q - 1) / q := by
  rcases Nat.eq_zero_or_pos (n % q) with h0 | hpos
  · rw [if_pos h0]
    obtain ⟨m, rfl⟩ := Nat.dvd_of_mod_eq_zero h0
    rw [Nat.mul_div_cancel_left m hq]
    have h1 : q * m + q - 1 = q * m + (q - 1) := by omega
    rw [h1, Nat.mul_add_div hq, Nat.div_eq_of_lt (by omega)]
  · rw [if_neg (by omega)]
    have hm : n % q < q := Nat.mod_lt _ hq
    have h1 : n + q - 1 = q * (n / q) + (q * 1 + (n % q - 1)) := by
      have hd := Nat.div_add_mod n q
      omega
    have h2 : (q * 1 + (n % q - 1)) / q = 1 := by
      rw [Nat.mul_add_div hq, Nat.div_eq_of_lt (by omega)]
    rw [h1]
    have h3 : q * (n / q) + (q * 1 + (n % q - 1)) = q * (n / q + 1) + (n % q - 1) := by ring
    rw [h3, Nat.mul_add_div hq (n / q + 1) (n % q - 1),
      Nat.div_eq_of_lt (show n % q - 1 < q by omega), Nat.add_zero]

/-- Below the `uint32_t` wrap, `getAlignedSize` is exactly the size rounded
up to the next multiple of the quantum. -/
theorem getAlignedSize_eq_ceil (c : Context) (n : Nat) (hq : 0 < c.alignment)
    (hlt : (n + c.alignment - 1) / c.alignment * c.alignment < u32_mod) :
    c.getAlignedSize n = (n + c.alignment - 1) / c.alignment * c.alignment := by
  simp only [Context.getAlignedSize]
  rw [chunks_eq_ceil n c.alignment hq]
  have hchunk : (n + c.alignment - 1) / c.alignment < u32_mod := by
    calc (n + c.alignment - 1) / c.alignment
        ≤ (n + c.alignment - 1) / c.alignment * c.alignment := Nat.le_mul_of_pos_right _ hq
      _ < u32_mod := hlt
  rw [Nat.mod_eq_of_lt hchunk, Nat.mod_eq_of_lt hlt]

/-- The ceiling multiple is at least `n`. -/
theorem le_ceil_mul (n q : Nat) (hq : 0 < q) : n ≤ (n + q - 1) / q * q := by
  have hd := Nat.div_add_mod' (n + q - 1) q
  have hm : (n + q - 1) % q < q := Nat.mod_lt _ hq
  omega

/-- The ceiling multiple equals `n` exactly when the quantum divides `n`. -/
theorem ceil_mul_eq_iff (n q : Nat) (hq : 0 < q) :
    ((n + q - 1) / q * q = n ↔ q ∣ n) := by
  constructor
  · intro h
    exact ⟨(n + q - 1) / q, by rw [Nat.mul_comm]; exact h.symm⟩
  · rintro ⟨m, rfl⟩
    rcases Nat.eq_zero_or_pos m with rfl | hm
    · rw [Nat.mul_zero, Nat.zero_add, Nat.div_eq_of_lt (by omega), Nat.zero_mul]
    · have h1 : q * m + q - 1 = q * m + (q - 1) := by omega
      rw [h1, Nat.mul_add_div hq, Nat.div_eq_of_lt (by omega), Nat.add_zero, Nat.mul_comm]

end PackBuffer

namespace PackBuffer

/-- A bind whose continuation tags its result `true` can never produce a
`false` result. -/
theorem bind_true_ne_ok_false (x : Except String Context) (d' : Context) :
    (x >>= fun c2 => (Except.ok (true, c2) : Except String (Bool × Context))) ≠
      Except.ok (false, d') := by
  cases x <;> simp

/-- Claim C2: whenever any strategy's `put` returns failure — the
trivial-scalar, C-string, pointer+length, vector, list and map strategies —
the context, and hence `getDataSize()` and `getBufferSize()`, is exactly as
it was before the call (strict no-partial-write on the failure path).  The
fixed-size-array strategy has no executable `put` in the repository (see the
note at `getTypeSizeArray`); `char` arrays are routed to the C-string
strategy covered here. -/
theorem claim_C2_no_partial_write (bs : List Nat) (str : Option (List Nat))
    (sizeofT dataLen : Nat) (buf : Option (List Nat)) (elems : List (List Nat))
    (entries : List (List Nat × List Nat)) (c ca cb cc cd ce cf : Context) :
    (putTrivial bs c = .ok (false, ca) →
      getDataSize ca = getDataSize c ∧ getBufferSize ca = getBufferSize c ∧ ca = c) ∧
    (putCString str c = .ok (false, cb) →
      getDataSize cb = getDataSize c ∧ getBufferSize cb = getBufferSize c ∧ cb = c) ∧
    (putPtr sizeofT buf dataLen c = .ok (false, cc) →
      getDataSize cc = getDataSize c ∧ getBufferSize cc = getBufferSize c ∧ cc = c) ∧
    (putVector sizeofT elems c = .ok (false, cd) →
      getDataSize cd = getDataSize c ∧ getBufferSize cd = getBufferSize c ∧ cd = c) ∧
    (putList sizeofT elems c = .ok (false, ce) →
      getDataSize ce = getDataSize c ∧ getBufferSize ce = getBufferSize c ∧ ce = c) ∧
    (putMap entries c = .ok (false, cf) →
      getDataSize cf = getDataSize c ∧ getBufferSize cf = getBufferSize c ∧ cf = c) := by
  refine ⟨?_, ?_, ?_, ?_, ?_, ?_⟩
  · intro h
    unfold putTrivial at h
    split at h
    · cases haa : Context.addAssign
          { c with mem := writeBytes c.mem c.msg_size bs } bs.length with
      | error e => rw [haa] at h; simp at h
      | ok c2 => rw [haa] at h; simp at h
    · simp at h
      subst h
      exact ⟨rfl, rfl, rfl⟩
  · intro h
    cases str with
    | none =>
      simp only [putCString] at h
      simp at h
      subst h
      exact ⟨rfl, rfl, rfl⟩
    | some content =>
      simp only [putCString] at h
      split at h
      · cases haa : Context.addAssign
            { c with mem := writeBytes c.mem c.msg_size (content ++ [0]) }
            (getTypeSizeCString content) with
        | error e => rw [haa] at h; simp at h
        | ok c2 => rw [haa] at h; simp at h
      · simp at h
        subst h
        exact ⟨rfl, rfl, rfl⟩
  · intro h
    cases buf with
    | none =>
      simp only [putPtr] at h
      simp at h
      subst h
      exact ⟨rfl, rfl, rfl⟩
    | some bytes =>
      simp only [putPtr] at h
      split at h
      · cases hcnt : putTrivial (size_t_bytes dataLen) c with
        | error e => rw [hcnt] at h; simp at h
        | ok p =>
          obtain ⟨b1, c1⟩ := p
          rw [hcnt] at h
          simp at h
          exact absurd h (bind_true_ne_ok_false _ _)
      · simp at h
        subst h
        exact ⟨rfl, rfl, rfl⟩
  · intro h
    unfold putVector at h
    split at h
    · split at h
      · cases hcnt : putTrivial (size_t_bytes elems.length) c with
        | error e => rw [hcnt] at h; simp at h
        | ok p =>
          obtain ⟨b1, c1⟩ := p
          rw [hcnt] at h
          simp at h
          exact absurd h (bind_true_ne_ok_false _ _)
      · simp at h
        subst h
        exact ⟨rfl, rfl, rfl⟩
    · simp at h
      subst h
      exact ⟨rfl, rfl, rfl⟩
  · intro h
    unfold putList at h
    split at h
    · split at h
      · cases hcnt : putTrivial (size_t_bytes elems.length) c with
        | error e => rw [hcnt] at h; simp at h
        | ok p =>
          rw [hcnt] at h
          simp at h
          exact absurd h (bind_true_ne_ok_false _ _)
      · simp at h
        subst h
        exact ⟨rfl, rfl, rfl⟩
    · simp at h
      subst h
      exact ⟨rfl, rfl, rfl⟩
  · intro h
    unfold putMap at h
    split at h
    · split at h
      · cases hcnt : putTrivial (size_t_bytes entries.length) c with
        | error e => rw [hcnt] at h; simp at h
        | ok p =>
          rw [hcnt] at h
          simp at h
          exact absurd h (bind_true_ne_ok_false _ _)
      · simp at h
        subst h
        exact ⟨rfl, rfl, rfl⟩
    · simp at h
      subst h
      exact ⟨rfl, rfl, rfl⟩

/-- Claim C2 witness: concrete rejected puts for all six strategies — a
4-byte scalar and a 3-byte C string on a capacity-2 buffer, and a
pointer+length span, a one-element vector, a one-element list and a
one-entry map on a capacity-4 buffer — each leaving the context unchanged. -/
theorem claim_C2_witness :
    (getDataSize (freshContext 2 4) = getDataSize (freshContext 2 4) ∧
      getBufferSize (freshContext 2 4) = getBufferSize (freshContext 2 4) ∧
      freshContext 2 4 = freshContext 2 4) ∧
    (getDataSize (freshContext 2 4) = getDataSize (freshContext 2 4) ∧
      getBufferSize (freshContext 2 4) = getBufferSize (freshContext 2 4) ∧
      freshContext 2 4 = freshContext 2 4) ∧
    (getDataSize (freshContext 4 4) = getDataSize (freshContext 4 4) ∧
      getBufferSize (freshContext 4 4) = getBufferSize (freshContext 4 4) ∧
      freshContext 4 4 = freshContext 4 4) ∧
    (getDataSize (freshContext 4 4) = getDataSize (freshContext 4 4) ∧
      getBufferSize (freshContext 4 4) = getBufferSize (freshContext 4 4) ∧
      freshContext 4 4 = freshContext 4 4) ∧
    (getDataSize (freshContext 4 4) = getDataSize (freshContext 4 4) ∧
      getBufferSize (freshContext 4 4) = getBufferSize (freshContext 4 4) ∧
      freshContext 4 4 = freshContext 4 4) ∧
    (getDataSize (freshContext 4 4) = getDataSize (freshContext 4 4) ∧
      getBufferSize (freshContext 4 4) = getBufferSize (freshContext 4 4) ∧
      freshContext 4 4 = freshContext 4 4) :=
  ⟨(claim_C2_no_partial_write [1, 2, 3, 4] (some [104, 105]) 4 1 (some [1, 2, 3, 4])
      [[1, 2, 3, 4]] [([1], [2])] (freshContext 2 4) (freshContext 2 4)
      (freshContext 2 4) (freshContext 2 4) (freshContext 2 4) (freshContext 2 4)
      (freshContext 2 4)).1 rfl,
   (claim_C2_no_partial_write [1, 2, 3, 4] (some [104, 105]) 4 1 (some [1, 2, 3, 4])
      [[1, 2, 3, 4]] [([1], [2])] (freshContext 2 4) (freshContext 2 4)
      (freshContext 2 4) (freshContext 2 4) (freshContext 2 4) (freshContext 2 4)
      (freshContext 2 4)).2.1 rfl,
   (claim_C2_no_partial_write [1, 2, 3, 4] (some [104, 105]) 4 1 (some [1, 2, 3, 4])
      [[1, 2, 3, 4]] [([1], [2])] (freshContext 4 4) (freshContext 4 4)
      (freshContext 4 4) (freshContext 4 4) (freshContext 4 4) (freshContext 4 4)
      (freshContext 4 4)).2.2.1 rfl,
   (claim_C2_no_partial_write [1, 2, 3, 4] (some [104, 105]) 4 1 (some [1, 2, 3, 4])
      [[1, 2, 3, 4]] [([1], [2])] (freshContext 4 4) (freshContext 4 4)
      (freshContext 4 4) (freshContext 4 4) (freshContext 4 4) (freshContext 4 4)
      (freshContext 4 4)).2.2.2.1 rfl,
   (claim_C2_no_partial_write [1, 2, 3, 4] (some [104, 105]) 4 1 (some [1, 2, 3, 4])
      [[1, 2, 3, 4]] [([1], [2])] (freshContext 4 4) (freshContext 4 4)
      (freshContext 4 4) (freshContext 4 4) (freshContext 4 4) (freshContext 4 4)
      (freshContext 4 4)).2.2.2.2.1 rfl,
   (claim_C2_no_partial_write [1, 2, 3, 4] (some [104, 105]) 4 1 (some [1, 2, 3, 4])
      [[1, 2, 3, 4]] [([1], [2])] (freshContext 4 4) (freshContext 4 4)
      (freshContext 4 4) (freshContext 4 4) (freshContext 4 4) (freshContext 4 4)
      (freshContext 4 4)).2.2.2.2.2 rfl⟩

/-- Claim C5: packing an empty vector, list, or map writes no byte, leaves
the context (offset and memory) unchanged, and returns failure. -/
theorem claim_C5_empty_containers (sizeofT : Nat) (c : Context) :
    putVector sizeofT [] c = .ok (false, c) ∧
    putList sizeofT [] c = .ok (false, c) ∧
    putMap [] c = .ok (false, c) :=
  ⟨rfl, rfl, rfl⟩

/-- Claim C10: `put` with a null data pointer and any explicit length, and
`put` of a null C string, return failure and leave the context unchanged. -/
theorem claim_C10_null_rejected (sizeofT dataLen : Nat) (c : Context) :
    putPtr sizeofT none dataLen c = .ok (false, c) ∧
    putCString none c = .ok (false, c) :=
  ⟨rfl, rfl⟩

/-- Claim C8: on a buffer of capacity 16 with quantum 4, packing `int32` 7
succeeds with `getDataSize() = 4`, packing `int32` 9 succeeds with
`getDataSize() = 8`, packing the C string `"hello"` (6 bytes with the
terminator, rounded to 8) succeeds with `getDataSize() = 16`, and one more
`int32` fails with `getDataSize()` still 16. -/
theorem claim_C8_scenario :
    scenario16 = .ok ((true, 4), (true, 8), (true, 16), (false, 16)) := rfl

/-- Claim C3: on a capacity-6, quantum-4 buffer, `put(int32)` succeeds
(offset 4), and a subsequent `put` of a 2-byte scalar is *not* rejected —
`operator+=` checks the un-rounded size (`4 + 2 ≤ 6`), advances by the
aligned 4 bytes, and leaves `offset = 8 > capacity = 6`, breaking the
`offset ≤ capacity` invariant with no failure signalled. -/
theorem claim_C3_invariant_breach :
    scenario6 = .ok ((true, 4), (true, 8), false) := rfl

/-- Claim C1 counterexample: packing a 1-byte scalar (`char`) on a quantum-4
buffer succeeds and advances the cursor by 4 bytes, while `getTypeSize`
reports 1 — the advance is *not* equal to (and exceeds) the size report. -/
theorem claim_C1_counterexample :
    (putTrivial [97] (freshContext 16 4)).map (fun p => (p.1, p.2.msg_size)) =
      .ok (true, 4) ∧
    getTypeSizeTrivial [97] = 1 ∧ (4 : Nat) ≠ 1 :=
  ⟨rfl, rfl, by decide⟩

/-- Claim C4 counterexample: an advance request of `n = 2 ^ 32` bytes with
quantum 4 moves the cursor by 0 bytes (the `uint32_t` product
`kNumChunks * kAlignedMemChunk` wraps), not by
`ceil(n / 4) * 4 = 2 ^ 32`. -/
theorem claim_C4_counterexample :
    ((freshContext (2 ^ 64 - 1) 4).addAssign (2 ^ 32)).map Context.msg_size = .ok 0 ∧
    ((2 ^ 32 : Nat) + 4 - 1) / 4 * 4 = 2 ^ 32 ∧ (0 : Nat) ≠ 2 ^ 32 :=
  ⟨rfl, by decide, by decide⟩

/-- Claim C6: the facade routes fixed-size `char` arrays to the `char*`
strategy — `PackBuffer::put(const char (&)[dataLen])` casts the array to
`const char *` and delegates to `DelegatePackBuffer<char*>` — so packing
`char arr[4] = "abc"` on a fresh capacity-16, quantum-4 buffer succeeds,
writes the bytes through the NUL terminator at offset 0 with *no*
element-count length field (the first 8 bytes are `"abc\0"` plus untouched
padding, not a count), and advances the cursor 4 bytes; `getTypeSize(arr)`
does report `dataLen * sizeof(char) = 4` as the claim says.  (For non-`char`
element types the array strategy's `put` does not compile at all: it calls
`_ctx.size()` and `_ctx.data()`, members `Context` does not declare.) -/
theorem claim_C6_char_array_routed :
    (putCString (some [97, 98, 99]) (freshContext 16 4)).map
      (fun p => (p.1, p.2.msg_size, readBytes p.2.mem 0 8)) =
      .ok (true, 4, [97, 98, 99, 0, 0, 0, 0, 0]) ∧
    getTypeSizeArray 1 4 = 4 ∧
    ([97, 98, 99, 0, 0, 0, 0, 0] : List Nat) ≠ size_t_bytes 4 :=
  ⟨rfl, rfl, by decide⟩

end PackBuffer

namespace PackBuffer

/-- What a successful `operator+=` does to the context in a clean regime
(no `uint32_t` truncation of the aligned size, no `size_t` wrap of the
offset): the offset grows by exactly the size rounded up to the next
multiple of the quantum, and nothing else changes. -/
theorem addAssign_msg_eq (c c' : Context) (n : Nat)
    (hq : 0 < c.alignment)
    (hsmall : (n + c.alignment - 1) / c.alignment * c.alignment < u32_mod)
    (hmsg : c.msg_size + u32_mod ≤ size_t_mod)
    (hadd : c.addAssign n = .ok c') :
    c'.msg_size = c.msg_size + (n + c.alignment - 1) / c.alignment * c.alignment ∧
    c'.buf_size = c.buf_size ∧ c'.alignment = c.alignment ∧ c'.mem = c.mem := by
  unfold Context.addAssign at hadd
  split at hadd
  · exact absurd hadd (by simp)
  · simp only [Except.ok.injEq] at hadd
    subst hadd
    rw [getAlignedSize_eq_ceil c n hq hsmall]
    refine ⟨?_, rfl, rfl, rfl⟩
    show (c.msg_size + (n + c.alignment - 1) / c.alignment * c.alignment) % size_t_mod = _
    rw [Nat.mod_eq_of_lt (by omega)]

/-- Claim C4 (amended): whenever the advance succeeds and the rounded amount
stays below the `uint32_t` wrap (with the offset below the `size_t` wrap),
the cursor moves by exactly `ceil(n / quantum) * quantum`; at or above
`2 ^ 32` the `uint32_t` cast truncates the amount instead. -/
theorem claim_C4_aligned_advance (c c' : Context) (n : Nat)
    (hq : 0 < c.alignment)
    (hsmall : (n + c.alignment - 1) / c.alignment * c.alignment < u32_mod)
    (hmsg : c.msg_size + u32_mod ≤ size_t_mod)
    (hadd : c.addAssign n = .ok c') :
    c'.msg_size = c.msg_size + (n + c.alignment - 1) / c.alignment * c.alignment :=
  (addAssign_msg_eq c c' n hq hsmall hmsg hadd).1

/-- Claim C4 witness: quantum 4, request of 5 bytes from offset 0 — the
cursor lands at `0 + ceil(5 / 4) * 4 = 8`, the spec's own example. -/
theorem claim_C4_witness : (8 : Nat) = 0 + (5 + 4 - 1) / 4 * 4 :=
  claim_C4_aligned_advance (freshContext 16 4)
    ⟨16, 8, 4, List.replicate 16 0⟩ 5 (by decide) (by decide) (by decide) rfl

/-- Folding addition over a constant list sums `n` copies. -/
theorem foldl_add_replicate (n x acc : Nat) :
    List.foldl (fun a s => a + s) acc (List.replicate n x) = acc + n * x := by
  induction n generalizing acc with
  | zero => simp
  | succ k ih =>
    rw [List.replicate_succ]
    simp only [List.foldl_cons]
    rw [ih]
    ring

/-- Folding pairwise addition over a constant list of pairs sums `n` copies
of the pair's component sum. -/
theorem foldl_add_pair_replicate (n x y acc : Nat) :
    List.foldl (fun a p => a + p.1 + p.2) acc (List.replicate n (x, y)) =
      acc + n * (x + y) := by
  induction n generalizing acc with
  | zero => simp
  | succ k ih =>
    rw [List.replicate_succ]
    simp only [List.foldl_cons]
    rw [ih]
    ring

/-- Claim C7: for containers of fixed-width scalar elements (each element's
own `getTypeSize` being its constant `sizeof`), the closed-form size
(count field plus `n` times the element size) equals the recursive
element-wise sum, for vectors and for maps. -/
theorem claim_C7_size_paths_agree (sizeofT n sK sV : Nat) :
    getTypeSizeVectorTrivial sizeofT n =
      getTypeSizeVectorRecursive (List.replicate n sizeofT) ∧
    getTypeSizeMapTrivialForm sK sV n =
      getTypeSizeMapRecursive (List.replicate n (sK, sV)) := by
  unfold getTypeSizeVectorTrivial getTypeSizeVectorRecursive getTypeSizeMapTrivialForm
    getTypeSizeMapRecursive
  rw [foldl_add_replicate, foldl_add_pair_replicate]
  constructor <;> ring

end PackBuffer

namespace PackBuffer

/-- The count field is always 8 bytes wide (`sizeof(size_t)`). -/
theorem size_t_bytes_length (n : Nat) : (size_t_bytes n).length = 8 := rfl

/-- An in-bounds overwrite preserves the region's length. -/
theorem writeBytes_length (mem bs : List Nat) (pos : Nat)
    (h : pos + bs.length ≤ mem.length) :
    (writeBytes mem pos bs).length = mem.length := by
  unfold writeBytes
  simp only [List.length_append, List.length_take, List.length_drop]
  omega

/-- Reading back an overwrite at its own position returns the written bytes. -/
theorem readBytes_writeBytes_self (mem bs : List Nat) (pos : Nat)
    (h : pos ≤ mem.length) :
    readBytes (writeBytes mem pos bs) pos bs.length = bs := by
  unfold readBytes writeBytes
  rw [List.append_assoc, List.drop_left' (by rw [List.length_take]; omega)]
  exact List.take_left' rfl

/-- An overwrite at or above `p2` does not disturb a read that ends at or
below `p2`. -/
theorem readBytes_writeBytes_below (mem bs : List Nat) (p1 len1 p2 : Nat)
    (hle : p1 + len1 ≤ p2) (hp2 : p2 ≤ mem.length) :
    readBytes (writeBytes mem p2 bs) p1 len1 = readBytes mem p1 len1 := by
  unfold readBytes writeBytes
  rw [List.append_assoc,
    List.drop_append_of_le_length (by rw [List.length_take]; omega),
    List.take_append_of_le_length (by rw [List.length_drop, List.length_take]; omega),
    List.drop_take, List.take_take, Nat.min_eq_left (by omega)]

/-- A successful `operator+=` changes only the offset. -/
theorem addAssign_preserves (c c' : Context) (sz : Nat) (h : c.addAssign sz = .ok c') :
    c'.buf_size = c.buf_size ∧ c'.alignment = c.alignment ∧ c'.mem = c.mem := by
  unfold Context.addAssign at h
  split at h
  · exact absurd h (by simp)
  · simp only [Except.ok.injEq] at h
    subst h
    exact ⟨rfl, rfl, rfl⟩

/-- `getAlignedSize` is a `uint32_t` value. -/
theorem getAlignedSize_lt (c : Context) (sz : Nat) : c.getAlignedSize sz < u32_mod := by
  simp only [Context.getAlignedSize]
  exact Nat.mod_lt _ (by norm_num [u32_mod])

/-- A bind whose continuation wraps the context in a `true` result: success
determines the context. -/
theorem bind_pure_true_ok (x : Except String Context) (c' : Context)
    (h : (x >>= fun c3 => (pure (true, c3) : Except String (Bool × Context))) =
      .ok (true, c')) :
    x = .ok c' := by
  cases x with
  | error e => simp at h
  | ok c3 =>
    simp only [except_bind_ok, except_pure_eq_ok, Except.ok.injEq, Prod.mk.injEq,
      true_and] at h
    rw [h]

end PackBuffer

namespace PackBuffer


/-- `addAssign_msg_eq` with the success equation first, so the context is
determined by it. -/
theorem addAssign_msg_eq_of (c c' : Context) (n : Nat)
    (hadd : c.addAssign n = .ok c')
    (hq : 0 < c.alignment)
    (hsmall : (n + c.alignment - 1) / c.alignment * c.alignment < u32_mod)
    (hmsg : c.msg_size + u32_mod ≤ size_t_mod) :
    c'.msg_size = c.msg_size + (n + c.alignment - 1) / c.alignment * c.alignment :=
  (addAssign_msg_eq c c' n hq hsmall hmsg hadd).1

/-- Claim C1 (amended): a successful `put` advances the cursor only by
alignment-rounded block sizes, never by `getTypeSize(v)` as such (stated in
the regime without `uint32_t`/`size_t` wrap, from a well-formed state): the
scalar and C-string strategies advance by exactly `getTypeSize(v)` rounded up
to the next multiple of the quantum — at least `getTypeSize(v)`, equal
precisely when the quantum divides it — and the pointer+length and vector
strategies advance by the rounded 8-byte count field plus the rounded
payload, which is again at least their `getTypeSize`.  (The list and map
strategies write element-wise with each element's failure silently ignored,
so no block formula is asserted for them; the fixed-size-array strategy has
no executable `put`, see `getTypeSizeArray`.) -/
theorem claim_C1_advance_rounded (c : Context)
    (hq : 0 < c.alignment)
    (hb : c.buf_size < size_t_mod)
    (hmb : c.msg_size ≤ c.buf_size)
    (hm : c.msg_size + u32_mod + u32_mod ≤ size_t_mod) :
    (∀ bs c', (bs.length + c.alignment - 1) / c.alignment * c.alignment < u32_mod →
      putTrivial bs c = .ok (true, c') →
      c'.msg_size = c.msg_size +
        (bs.length + c.alignment - 1) / c.alignment * c.alignment ∧
      getTypeSizeTrivial bs ≤ c'.msg_size - c.msg_size ∧
      (c'.msg_size - c.msg_size = getTypeSizeTrivial bs ↔
        c.alignment ∣ getTypeSizeTrivial bs)) ∧
    (∀ content c',
      (getTypeSizeCString content + c.alignment - 1) / c.alignment * c.alignment <
        u32_mod →
      putCString (some content) c = .ok (true, c') →
      c'.msg_size = c.msg_size +
        (getTypeSizeCString content + c.alignment - 1) / c.alignment * c.alignment ∧
      getTypeSizeCString content ≤ c'.msg_size - c.msg_size ∧
      (c'.msg_size - c.msg_size = getTypeSizeCString content ↔
        c.alignment ∣ getTypeSizeCString content)) ∧
    (∀ sizeofT bytes dataLen c',
      (8 + c.alignment - 1) / c.alignment * c.alignment < u32_mod →
      (sizeofT * dataLen + c.alignment - 1) / c.alignment * c.alignment < u32_mod →
      putPtr sizeofT (some bytes) dataLen c = .ok (true, c') →
      c'.msg_size = c.msg_size + (8 + c.alignment - 1) / c.alignment * c.alignment +
        (sizeofT * dataLen + c.alignment - 1) / c.alignment * c.alignment ∧
      getTypeSizePtr sizeofT dataLen ≤ c'.msg_size - c.msg_size) ∧
    (∀ sizeofT elems c',
      (8 + c.alignment - 1) / c.alignment * c.alignment < u32_mod →
      (elems.length * sizeofT + c.alignment - 1) / c.alignment * c.alignment <
        u32_mod →
      putVector sizeofT elems c = .ok (true, c') →
      c'.msg_size = c.msg_size + (8 + c.alignment - 1) / c.alignment * c.alignment +
        (elems.length * sizeofT + c.alignment - 1) / c.alignment * c.alignment ∧
      getTypeSizeVectorTrivial sizeofT elems.length ≤ c'.msg_size - c.msg_size) := by
  have hmsg : c.msg_size + u32_mod ≤ size_t_mod := by omega
  have hglt := getAlignedSize_lt c 8
  have hmod : (c.msg_size + c.getAlignedSize 8) % size_t_mod =
      c.msg_size + c.getAlignedSize 8 := Nat.mod_eq_of_lt (by omega)
  have hmsg2 : c.msg_size + c.getAlignedSize 8 + u32_mod ≤ size_t_mod := by omega
  refine ⟨?_, ?_, ?_, ?_⟩
  · intro bs c' hsmall hput
    unfold putTrivial at hput
    split at hput
    · cases haa : Context.addAssign
          { c with mem := writeBytes c.mem c.msg_size bs } bs.length with
      | error e => rw [haa] at hput; simp at hput
      | ok c2 =>
        rw [haa] at hput
        simp only [except_bind_ok, except_pure_eq_ok, Except.ok.injEq, Prod.mk.injEq,
          true_and] at hput
        subst hput
        have hmain :=
          addAssign_msg_eq { c with mem := writeBytes c.mem c.msg_size bs } c2 bs.length
            hq hsmall hmsg haa
        have h1 : c2.msg_size =
            c.msg_size + (bs.length + c.alignment - 1) / c.alignment * c.alignment :=
          hmain.1
        refine ⟨h1, ?_, ?_⟩
        · have := le_ceil_mul bs.length c.alignment hq
          unfold getTypeSizeTrivial
          omega
        · have h2 : c2.msg_size - c.msg_size =
              (bs.length + c.alignment - 1) / c.alignment * c.alignment := by omega
          rw [h2]
          exact ceil_mul_eq_iff bs.length c.alignment hq
    · exact absurd hput (by simp)
  · intro content c' hsmall hput
    simp only [putCString] at hput
    split at hput
    · cases haa : Context.addAssign
          { c with mem := writeBytes c.mem c.msg_size (content ++ [0]) }
          (getTypeSizeCString content) with
      | error e => rw [haa] at hput; simp at hput
      | ok c2 =>
        rw [haa] at hput
        simp only [except_bind_ok, except_pure_eq_ok, Except.ok.injEq, Prod.mk.injEq,
          true_and] at hput
        subst hput
        have hmain :=
          addAssign_msg_eq { c with mem := writeBytes c.mem c.msg_size (content ++ [0]) }
            c2 (getTypeSizeCString content) hq hsmall hmsg haa
        have h1 : c2.msg_size = c.msg_size +
            (getTypeSizeCString content + c.alignment - 1) / c.alignment * c.alignment :=
          hmain.1
        refine ⟨h1, ?_, ?_⟩
        · have := le_ceil_mul (getTypeSizeCString content) c.alignment hq
          omega
        · have h2 : c2.msg_size - c.msg_size =
              (getTypeSizeCString content + c.alignment - 1) / c.alignment *
                c.alignment := by omega
          rw [h2]
          exact ceil_mul_eq_iff (getTypeSizeCString content) c.alignment hq
    · exact absurd hput (by simp)
  · intro sizeofT bytes dataLen c' hs8 hsp hput
    simp only [putPtr] at hput
    split at hput
    next hguard =>
      rw [buffer_size_eq c hb hmb] at hguard
      have hfit : c.msg_size + (size_t_bytes dataLen).length ≤ c.buf_size := by
        rw [size_t_bytes_length]
        unfold getTypeSizePtr at hguard
        omega
      rw [putTrivial_ok_clean (size_t_bytes dataLen) c hfit hb] at hput
      rw [size_t_bytes_length] at hput
      rw [hmod] at hput
      simp only [except_bind_ok] at hput
      have haa := bind_pure_true_ok _ _ hput
      have h1 : c'.msg_size = c.msg_size + c.getAlignedSize 8 +
          (sizeofT * dataLen + c.alignment - 1) / c.alignment * c.alignment :=
        addAssign_msg_eq_of _ c' (sizeofT * dataLen) haa hq hsp hmsg2
      rw [getAlignedSize_eq_ceil c 8 hq hs8] at h1
      refine ⟨h1, ?_⟩
      have ha8 := le_ceil_mul 8 c.alignment hq
      have hap := le_ceil_mul (sizeofT * dataLen) c.alignment hq
      unfold getTypeSizePtr
      omega
    next hguard => exact absurd hput (by simp)
  · intro sizeofT elems c' hs8 hsp hput
    unfold putVector at hput
    split at hput
    · split at hput
      next hguard =>
        rw [buffer_size_eq c hb hmb] at hguard
        have hfit : c.msg_size + (size_t_bytes elems.length).length ≤ c.buf_size := by
          rw [size_t_bytes_length]
          unfold getTypeSizeVectorTrivial at hguard
          omega
        rw [putTrivial_ok_clean (size_t_bytes elems.length) c hfit hb] at hput
        rw [size_t_bytes_length] at hput
        rw [hmod] at hput
        simp only [except_bind_ok] at hput
        have haa := bind_pure_true_ok _ _ hput
        have h1 : c'.msg_size = c.msg_size + c.getAlignedSize 8 +
            (elems.length * sizeofT + c.alignment - 1) / c.alignment * c.alignment :=
          addAssign_msg_eq_of _ c' (elems.length * sizeofT) haa hq hsp hmsg2
        rw [getAlignedSize_eq_ceil c 8 hq hs8] at h1
        refine ⟨h1, ?_⟩
        have ha8 := le_ceil_mul 8 c.alignment hq
        have hap := le_ceil_mul (elems.length * sizeofT) c.alignment hq
        have hcomm : sizeofT * elems.length = elems.length * sizeofT :=
          Nat.mul_comm _ _
        unfold getTypeSizeVectorTrivial
        omega
      next hguard => exact absurd hput (by simp)
    · exact absurd hput (by simp)

/-- Claim C1 witness: on a fresh capacity-16, quantum-4 buffer, a 4-byte
scalar advances the cursor by exactly its `getTypeSize` (4 divides 4), and a
2-element vector of 4-byte scalars advances by the rounded count field plus
the rounded payload, `8 + 8 = 16 ≥ getTypeSize = 16`. -/
theorem claim_C1_witness :
    ((4 : Nat) = 0 + (([104, 105, 33, 7] : List Nat).length + 4 - 1) / 4 * 4 ∧
      getTypeSizeTrivial [104, 105, 33, 7] ≤ 4 - 0 ∧
      (4 - 0 = getTypeSizeTrivial [104, 105, 33, 7] ↔
        4 ∣ getTypeSizeTrivial [104, 105, 33, 7])) ∧
    ((16 : Nat) = 0 + (8 + 4 - 1) / 4 * 4 +
        (([[7, 0, 0, 0], [9, 0, 0, 0]] : List (List Nat)).length * 4 + 4 - 1) / 4 * 4 ∧
      getTypeSizeVectorTrivial 4 ([[7, 0, 0, 0], [9, 0, 0, 0]] : List (List Nat)).length ≤
        16 - 0) :=
  ⟨(claim_C1_advance_rounded (freshContext 16 4) (by decide) (by decide) (by decide)
      (by decide)).1 [104, 105, 33, 7]
      ⟨16, 4, 4, [104, 105, 33, 7] ++ List.replicate 12 0⟩ (by decide) rfl,
   (claim_C1_advance_rounded (freshContext 16 4) (by decide) (by decide) (by decide)
      (by decide)).2.2.2 4 [[7, 0, 0, 0], [9, 0, 0, 0]]
      ⟨16, 16, 4, [2, 0, 0, 0, 0, 0, 0, 0, 7, 0, 0, 0, 9, 0, 0, 0]⟩
      (by decide) (by decide) rfl⟩

/-- The "divisible offset" invariant: the quantum divides the current write
offset and the context carries that quantum. -/

theorem dvd_getAlignedSize (c : Context) (sz q : Nat) (ha : c.alignment = q)
    (hq32 : q ∣ u32_mod) : q ∣ c.getAlignedSize sz := by
  simp only [Context.getAlignedSize]
  rw [ha]
  exact (Nat.dvd_mod_iff hq32).mpr (dvd_mul_left q _)

theorem addAssign_dvd (c c' : Context) (sz q : Nat) (hq32 : q ∣ u32_mod)
    (hq64 : q ∣ size_t_mod) (hd : q ∣ c.msg_size) (ha : c.alignment = q)
    (h : c.addAssign sz = .ok c') :
    q ∣ c'.msg_size ∧ c'.alignment = q := by
  unfold Context.addAssign at h
  split at h
  · exact absurd h (by simp)
  · simp only [Except.ok.injEq] at h
    subst h
    refine ⟨?_, ha⟩
    exact (Nat.dvd_mod_iff hq64).mpr
      (Nat.dvd_add hd (dvd_getAlignedSize c sz q ha hq32))

theorem subAssign_dvd (c c' : Context) (sz q : Nat) (hq32 : q ∣ u32_mod)
    (hq64 : q ∣ size_t_mod) (hd : q ∣ c.msg_size) (ha : c.alignment = q)
    (h : c.subAssign sz = .ok c') :
    q ∣ c'.msg_size ∧ c'.alignment = q := by
  unfold Context.subAssign at h
  split at h
  · exact absurd h (by simp)
  · simp only [Except.ok.injEq] at h
    subst h
    refine ⟨?_, ha⟩
    exact (Nat.dvd_mod_iff hq64).mpr
      (Nat.dvd_add hd (Nat.dvd_sub' hq64 (dvd_getAlignedSize c sz q ha hq32)))

theorem putTrivial_dvd (bs : List Nat) (c : Context) (r : Bool) (c' : Context)
    (q : Nat) (hq32 : q ∣ u32_mod) (hq64 : q ∣ size_t_mod)
    (hd : q ∣ c.msg_size) (ha : c.alignment = q)
    (h : putTrivial bs c = .ok (r, c')) :
    q ∣ c'.msg_size ∧ c'.alignment = q := by
  unfold putTrivial at h
  split at h
  · cases haa : Context.addAssign
        { c with mem := writeBytes c.mem c.msg_size bs } bs.length with
    | error e => rw [haa] at h; simp at h
    | ok c2 =>
      rw [haa] at h
      simp only [except_bind_ok, except_pure_eq_ok, Except.ok.injEq, Prod.mk.injEq] at h
      obtain ⟨_, h2⟩ := h
      subst h2
      exact addAssign_dvd { c with mem := writeBytes c.mem c.msg_size bs } c2
        bs.length q hq32 hq64 hd ha haa
  · simp only [except_pure_eq_ok, Except.ok.injEq, Prod.mk.injEq] at h
    obtain ⟨_, h2⟩ := h
    subst h2
    exact ⟨hd, ha⟩

theorem putCString_dvd (str : Option (List Nat)) (c : Context) (r : Bool) (c' : Context)
    (q : Nat) (hq32 : q ∣ u32_mod) (hq64 : q ∣ size_t_mod)
    (hd : q ∣ c.msg_size) (ha : c.alignment = q)
    (h : putCString str c = .ok (r, c')) :
    q ∣ c'.msg_size ∧ c'.alignment = q := by
  cases str with
  | none =>
    simp only [putCString] at h
    simp only [except_pure_eq_ok, Except.ok.injEq, Prod.mk.injEq] at h
    obtain ⟨_, h2⟩ := h
    subst h2
    exact ⟨hd, ha⟩
  | some content =>
    simp only [putCString] at h
    split at h
    · cases haa : Context.addAssign
          { c with mem := writeBytes c.mem c.msg_size (content ++ [0]) }
          (getTypeSizeCString content) with
      | error e => rw [haa] at h; simp at h
      | ok c2 =>
        rw [haa] at h
        simp only [except_bind_ok, except_pure_eq_ok, Except.ok.injEq, Prod.mk.injEq] at h
        obtain ⟨_, h2⟩ := h
        subst h2
        exact addAssign_dvd
          { c with mem := writeBytes c.mem c.msg_size (content ++ [0]) } c2
          (getTypeSizeCString content) q hq32 hq64 hd ha haa
    · simp only [except_pure_eq_ok, Except.ok.injEq, Prod.mk.injEq] at h
      obtain ⟨_, h2⟩ := h
      subst h2
      exact ⟨hd, ha⟩

theorem putPtr_dvd (sizeofT : Nat) (buf : Option (List Nat)) (dataLen : Nat)
    (c : Context) (r : Bool) (c' : Context) (q : Nat)
    (hq32 : q ∣ u32_mod) (hq64 : q ∣ size_t_mod)
    (hd : q ∣ c.msg_size) (ha : c.alignment = q)
    (h : putPtr sizeofT buf dataLen c = .ok (r, c')) :
    q ∣ c'.msg_size ∧ c'.alignment = q := by
  cases buf with
  | none =>
    simp only [putPtr] at h
    simp only [except_pure_eq_ok, Except.ok.injEq, Prod.mk.injEq] at h
    obtain ⟨_, h2⟩ := h
    subst h2
    exact ⟨hd, ha⟩
  | some bytes =>
    simp only [putPtr] at h
    split at h
    · cases hp : putTrivial (size_t_bytes dataLen) c with
      | error e => rw [hp] at h; simp at h
      | ok p =>
        obtain ⟨b1, c1⟩ := p
        rw [hp] at h
        simp only [except_bind_ok] at h
        cases haa : Context.addAssign
            { c1 with mem := writeBytes c1.mem c1.msg_size bytes }
            (sizeofT * dataLen) with
        | error e => rw [haa] at h; simp at h
        | ok c3 =>
          rw [haa] at h
          simp only [except_bind_ok, except_pure_eq_ok, Except.ok.injEq,
            Prod.mk.injEq] at h
          obtain ⟨_, h2⟩ := h
          subst h2
          have hmid := putTrivial_dvd (size_t_bytes dataLen) c b1 c1 q hq32 hq64 hd ha hp
          exact addAssign_dvd { c1 with mem := writeBytes c1.mem c1.msg_size bytes }
            c3 (sizeofT * dataLen) q hq32 hq64 hmid.1 hmid.2 haa
    · simp only [except_pure_eq_ok, Except.ok.injEq, Prod.mk.injEq] at h
      obtain ⟨_, h2⟩ := h
      subst h2
      exact ⟨hd, ha⟩

theorem putVector_dvd (sizeofT : Nat) (elems : List (List Nat)) (c : Context)
    (r : Bool) (c' : Context) (q : Nat) (hq32 : q ∣ u32_mod) (hq64 : q ∣ size_t_mod)
    (hd : q ∣ c.msg_size) (ha : c.alignment = q)
    (h : putVector sizeofT elems c = .ok (r, c')) :
    q ∣ c'.msg_size ∧ c'.alignment = q := by
  unfold putVector at h
  split at h
  · split at h
    · cases hp : putTrivial (size_t_bytes elems.length) c with
      | error e => rw [hp] at h; simp at h
      | ok p =>
        obtain ⟨b1, c1⟩ := p
        rw [hp] at h
        simp only [except_bind_ok] at h
        cases haa : Context.addAssign
            { c1 with mem := writeBytes c1.mem c1.msg_size elems.flatten }
            (elems.length * sizeofT) with
        | error e => rw [haa] at h; simp at h
        | ok c3 =>
          rw [haa] at h
          simp only [except_bind_ok, except_pure_eq_ok, Except.ok.injEq,
            Prod.mk.injEq] at h
          obtain ⟨_, h2⟩ := h
          subst h2
          have hmid := putTrivial_dvd (size_t_bytes elems.length) c b1 c1 q
            hq32 hq64 hd ha hp
          exact addAssign_dvd
            { c1 with mem := writeBytes c1.mem c1.msg_size elems.flatten }
            c3 (elems.length * sizeofT) q hq32 hq64 hmid.1 hmid.2 haa
    · simp only [except_pure_eq_ok, Except.ok.injEq, Prod.mk.injEq] at h
      obtain ⟨_, h2⟩ := h
      subst h2
      exact ⟨hd, ha⟩
  · simp only [except_pure_eq_ok, Except.ok.injEq, Prod.mk.injEq] at h
    obtain ⟨_, h2⟩ := h
    subst h2
    exact ⟨hd, ha⟩

/-- Folding a context-invariant-preserving monadic step preserves the
invariant. -/
theorem foldlM_dvd {α : Type} (q : Nat) (f : Context → α → Except String Context)
    (hf : ∀ cc a c2, q ∣ cc.msg_size → cc.alignment = q → f cc a = .ok c2 →
      q ∣ c2.msg_size ∧ c2.alignment = q) :
    ∀ (l : List α) (cc c2 : Context), q ∣ cc.msg_size → cc.alignment = q →
      List.foldlM f cc l = .ok c2 → q ∣ c2.msg_size ∧ c2.alignment = q := by
  intro l
  induction l with
  | nil =>
    intro cc c2 hd ha h
    rw [List.foldlM_nil] at h
    simp only [except_pure_eq_ok, Except.ok.injEq] at h
    subst h
    exact ⟨hd, ha⟩
  | cons a l ih =>
    intro cc c2 hd ha h
    rw [List.foldlM_cons] at h
    cases hfa : f cc a with
    | error e => rw [hfa] at h; simp at h
    | ok cmid =>
      rw [hfa] at h
      simp only [except_bind_ok] at h
      obtain ⟨hd2, ha2⟩ := hf cc a cmid hd ha hfa
      exact ih cmid c2 hd2 ha2 h

/-- A bind whose continuation wraps the context in a `true` result hit `.ok`:
the bound computation succeeded with that context. -/
theorem bind_pure_pair_ok (x : Except String Context) (r : Bool) (c' : Context)
    (h : (x >>= fun c2 => (pure (true, c2) : Except String (Bool × Context))) =
      .ok (r, c')) :
    x = .ok c' := by
  cases x with
  | error e => simp at h
  | ok c3 =>
    simp only [except_bind_ok, except_pure_eq_ok, Except.ok.injEq, Prod.mk.injEq] at h
    rw [h.2]

theorem putList_dvd (sizeofT : Nat) (elems : List (List Nat)) (c : Context)
    (r : Bool) (c' : Context) (q : Nat) (hq32 : q ∣ u32_mod) (hq64 : q ∣ size_t_mod)
    (hd : q ∣ c.msg_size) (ha : c.alignment = q)
    (h : putList sizeofT elems c = .ok (r, c')) :
    q ∣ c'.msg_size ∧ c'.alignment = q := by
  unfold putList at h
  split at h
  · split at h
    · cases hp : putTrivial (size_t_bytes elems.length) c with
      | error e => rw [hp] at h; simp at h
      | ok p =>
        obtain ⟨b1, c1⟩ := p
        rw [hp] at h
        simp only [except_bind_ok] at h
        have hfold := bind_pure_pair_ok _ _ _ h
        have hmid := putTrivial_dvd (size_t_bytes elems.length) c b1 c1 q
          hq32 hq64 hd ha hp
        refine foldlM_dvd q _ ?_ elems c1 c' hmid.1 hmid.2 hfold
        intro cc a c2 hd2 ha2 hfa
        cases hp2 : putTrivial a cc with
        | error e => rw [hp2] at hfa; simp at hfa
        | ok p2 =>
          obtain ⟨bb, cc2⟩ := p2
          rw [hp2] at hfa
          simp only [except_bind_ok, except_pure_eq_ok, Except.ok.injEq] at hfa
          subst hfa
          exact putTrivial_dvd a cc bb cc2 q hq32 hq64 hd2 ha2 hp2
    · simp only [except_pure_eq_ok, Except.ok.injEq, Prod.mk.injEq] at h
      obtain ⟨_, h2⟩ := h
      subst h2
      exact ⟨hd, ha⟩
  · simp only [except_pure_eq_ok, Except.ok.injEq, Prod.mk.injEq] at h
    obtain ⟨_, h2⟩ := h
    subst h2
    exact ⟨hd, ha⟩

theorem putMap_dvd (entries : List (List Nat × List Nat)) (c : Context)
    (r : Bool) (c' : Context) (q : Nat) (hq32 : q ∣ u32_mod) (hq64 : q ∣ size_t_mod)
    (hd : q ∣ c.msg_size) (ha : c.alignment = q)
    (h : putMap entries c = .ok (r, c')) :
    q ∣ c'.msg_size ∧ c'.alignment = q := by
  unfold putMap at h
  split at h
  · split at h
    · cases hp : putTrivial (size_t_bytes entries.length) c with
      | error e => rw [hp] at h; simp at h
      | ok p =>
        obtain ⟨b1, c1⟩ := p
        rw [hp] at h
        simp only [except_bind_ok] at h
        have hfold := bind_pure_pair_ok _ _ _ h
        have hmid := putTrivial_dvd (size_t_bytes entries.length) c b1 c1 q
          hq32 hq64 hd ha hp
        refine foldlM_dvd q _ ?_ entries c1 c' hmid.1 hmid.2 hfold
        intro cc a c2 hd2 ha2 hfa
        cases hp2 : putTrivial a.1 cc with
        | error e => rw [hp2] at hfa; simp at hfa
        | ok p2 =>
          obtain ⟨bb, cc1⟩ := p2
          rw [hp2] at hfa
          simp only [except_bind_ok] at hfa
          have hmid2 := putTrivial_dvd a.1 cc bb cc1 q hq32 hq64 hd2 ha2 hp2
          cases hp3 : putTrivial a.2 cc1 with
          | error e => rw [hp3] at hfa; simp at hfa
          | ok p3 =>
            obtain ⟨bc, cc2⟩ := p3
            rw [hp3] at hfa
            simp only [except_bind_ok, except_pure_eq_ok, Except.ok.injEq] at hfa
            subst hfa
            exact putTrivial_dvd a.2 cc1 bc cc2 q hq32 hq64 hmid2.1 hmid2.2 hp3
    · simp only [except_pure_eq_ok, Except.ok.injEq, Prod.mk.injEq] at h
      obtain ⟨_, h2⟩ := h
      subst h2
      exact ⟨hd, ha⟩
  · simp only [except_pure_eq_ok, Except.ok.injEq, Prod.mk.injEq] at h
    obtain ⟨_, h2⟩ := h
    subst h2
    exact ⟨hd, ha⟩

theorem applyOp_dvd (op : Op) (c c2 : Context) (q : Nat)
    (hq32 : q ∣ u32_mod) (hq64 : q ∣ size_t_mod)
    (hd : q ∣ c.msg_size) (ha : c.alignment = q)
    (h : applyOp op c = .ok c2) :
    q ∣ c2.msg_size ∧ c2.alignment = q := by
  cases op with
  | opScalar bs =>
    simp only [applyOp] at h
    cases hp : putTrivial bs c with
    | error e => rw [hp] at h; simp at h
    | ok p =>
      obtain ⟨b, cmid⟩ := p
      rw [hp] at h
      simp only [except_bind_ok, except_pure_eq_ok, Except.ok.injEq] at h
      subst h
      exact putTrivial_dvd bs c b cmid q hq32 hq64 hd ha hp
  | opCString s =>
    simp only [applyOp] at h
    cases hp : putCString s c with
    | error e => rw [hp] at h; simp at h
    | ok p =>
      obtain ⟨b, cmid⟩ := p
      rw [hp] at h
      simp only [except_bind_ok, except_pure_eq_ok, Except.ok.injEq] at h
      subst h
      exact putCString_dvd s c b cmid q hq32 hq64 hd ha hp
  | opPtr s bf n =>
    simp only [applyOp] at h
    cases hp : putPtr s bf n c with
    | error e => rw [hp] at h; simp at h
    | ok p =>
      obtain ⟨b, cmid⟩ := p
      rw [hp] at h
      simp only [except_bind_ok, except_pure_eq_ok, Except.ok.injEq] at h
      subst h
      exact putPtr_dvd s bf n c b cmid q hq32 hq64 hd ha hp
  | opVector s es =>
    simp only [applyOp] at h
    cases hp : putVector s es c with
    | error e => rw [hp] at h; simp at h
    | ok p =>
      obtain ⟨b, cmid⟩ := p
      rw [hp] at h
      simp only [except_bind_ok, except_pure_eq_ok, Except.ok.injEq] at h
      subst h
      exact putVector_dvd s es c b cmid q hq32 hq64 hd ha hp
  | opList s es =>
    simp only [applyOp] at h
    cases hp : putList s es c with
    | error e => rw [hp] at h; simp at h
    | ok p =>
      obtain ⟨b, cmid⟩ := p
      rw [hp] at h
      simp only [except_bind_ok, except_pure_eq_ok, Except.ok.injEq] at h
      subst h
      exact putList_dvd s es c b cmid q hq32 hq64 hd ha hp
  | opMap es =>
    simp only [applyOp] at h
    cases hp : putMap es c with
    | error e => rw [hp] at h; simp at h
    | ok p =>
      obtain ⟨b, cmid⟩ := p
      rw [hp] at h
      simp only [except_bind_ok, except_pure_eq_ok, Except.ok.injEq] at h
      subst h
      exact putMap_dvd es c b cmid q hq32 hq64 hd ha hp
  | opReset =>
    simp only [applyOp, reset] at h
    exact subAssign_dvd c c2 c.msg_size q hq32 hq64 hd ha h

theorem runOps_dvd (q : Nat) (hq32 : q ∣ u32_mod) (hq64 : q ∣ size_t_mod)
    (ops : List Op) (c c' : Context) (hd : q ∣ c.msg_size) (ha : c.alignment = q)
    (h : runOps ops c = .ok c') :
    q ∣ c'.msg_size ∧ c'.alignment = q := by
  unfold runOps at h
  exact foldlM_dvd q _
    (fun cc op cc2 hd2 ha2 hf => applyOp_dvd op cc cc2 q hq32 hq64 hd2 ha2 hf)
    ops c c' hd ha h

/-- When the quantum divides the offset and the offset is below the
`uint32_t` wrap, `reset()` retreats exactly back to offset zero. -/
theorem reset_zero (c : Context) (q : Nat) (hq : 0 < q) (ha : c.alignment = q)
    (hd : q ∣ c.msg_size) (hlt : c.msg_size < u32_mod) :
    (reset c).map Context.msg_size = .ok 0 := by
  have hgas : c.getAlignedSize c.msg_size = c.msg_size := by
    simp only [Context.getAlignedSize]
    rw [ha]
    obtain ⟨m, hm⟩ := hd
    rw [hm, Nat.mul_mod_right]
    rw [if_pos rfl, Nat.mul_div_cancel_left m hq, Nat.add_zero]
    have hmlt : m < u32_mod := by
      have h1 : m ≤ q * m := Nat.le_mul_of_pos_left m hq
      rw [hm] at hlt
      omega
    rw [Nat.mod_eq_of_lt hmlt, Nat.mul_comm m q, Nat.mod_eq_of_lt (by rw [hm] at hlt; omega)]
  have hle : c.msg_size ≤ size_t_mod := by
    have h1 : u32_mod ≤ size_t_mod := by norm_num [u32_mod, size_t_mod]
    omega
  unfold reset Context.subAssign
  rw [if_neg (by omega)]
  show Except.map Context.msg_size (Except.ok
    { c with msg_size :=
        (c.msg_size + (size_t_mod - c.getAlignedSize c.msg_size)) % size_t_mod }) = .ok 0
  rw [hgas]
  simp only [Except.map]
  have hz : (c.msg_size + (size_t_mod - c.msg_size)) % size_t_mod = 0 := by
    have h2 : c.msg_size + (size_t_mod - c.msg_size) = size_t_mod := by omega
    rw [h2, Nat.mod_self]
  show Except.ok ((c.msg_size + (size_t_mod - c.msg_size)) % size_t_mod) = Except.ok 0
  rw [hz]

/-- Claim C9 (amended): starting from any state whose offset the quantum
divides (in particular a fresh buffer), after any sequence of put and reset
operations the offset is still an exact multiple of the power-of-two
alignment quantum; and whenever the offset is below `2 ^ 32`, `reset()`
returns it to exactly zero (at `2 ^ 32` and above the `uint32_t` truncation
in `getAlignedSize` makes `reset` fall short). -/
theorem claim_C9_offset_aligned (q : Nat) (hq : IsAlignQuantum q) (ops : List Op)
    (c c' : Context) (ha : c.alignment = q) (h0 : q ∣ c.msg_size)
    (hrun : runOps ops c = .ok c') :
    q ∣ c'.msg_size ∧ c'.alignment = q ∧
    (c'.msg_size < u32_mod → (reset c').map Context.msg_size = .ok 0) := by
  obtain ⟨k, hk, hqe⟩ := hq
  have hq0 : 0 < q := by
    rw [hqe]
    exact pow_pos (by norm_num) k
  have hq32 : q ∣ u32_mod := by
    rw [hqe]
    exact pow_dvd_pow 2 hk
  have hq64 : q ∣ size_t_mod := by
    rw [hqe]
    exact pow_dvd_pow 2 (by omega)
  have hmain := runOps_dvd q hq32 hq64 ops c c' h0 ha hrun
  exact ⟨hmain.1, hmain.2,
    fun hlt => reset_zero c' q hq0 hmain.2 hmain.1 hlt⟩

/-- Claim C9 witness: one `int32` put on a fresh capacity-16, quantum-4
buffer leaves offset 4 — a multiple of 4 — and a reset from it returns to 0. -/
theorem claim_C9_witness :
    (4 : Nat) ∣ (⟨16, 4, 4, [7, 0, 0, 0] ++ List.replicate 12 0⟩ : Context).msg_size ∧
    (⟨16, 4, 4, [7, 0, 0, 0] ++ List.replicate 12 0⟩ : Context).alignment = 4 ∧
    ((⟨16, 4, 4, [7, 0, 0, 0] ++ List.replicate 12 0⟩ : Context).msg_size < u32_mod →
      (reset (⟨16, 4, 4, [7, 0, 0, 0] ++ List.replicate 12 0⟩ : Context)).map
        Context.msg_size = .ok 0) :=
  claim_C9_offset_aligned 4 ⟨2, by omega, by norm_num⟩
    [Op.opScalar [7, 0, 0, 0]] (freshContext 16 4)
    ⟨16, 4, 4, [7, 0, 0, 0] ++ List.replicate 12 0⟩ rfl ⟨0, rfl⟩ rfl

end PackBuffer

namespace PackBuffer

theorem runOps_cons (op : Op) (ops : List Op) (c : Context) :
    runOps (op :: ops) c = applyOp op c >>= fun c2 => runOps ops c2 := by
  unfold runOps
  rw [List.foldlM_cons]

theorem runOps_nil (c : Context) : runOps [] c = .ok c := rfl

/-- A facade-level scalar put on a fitting, well-formed context succeeds and
advances the offset by the aligned size. -/
theorem applyOp_scalar_ok (bs : List Nat) (c : Context)
    (hfit : c.msg_size + bs.length ≤ c.buf_size) (hb : c.buf_size < size_t_mod) :
    applyOp (Op.opScalar bs) c =
      .ok ({ c with
             mem := writeBytes c.mem c.msg_size bs,
             msg_size := (c.msg_size + c.getAlignedSize bs.length) % size_t_mod }) := by
  simp only [applyOp]
  rw [putTrivial_ok_clean bs c hfit hb]
  rfl

/-- A successful bound computation feeds its context straight into the rest
of the run. -/
theorem runOps_bind_ok (c : Context) (ops : List Op) :
    ((Except.ok c : Except String Context) >>= fun c2 => runOps ops c2) =
      runOps ops c := rfl

set_option maxRecDepth 100000 in
/-- Claim C9 counterexample: on the unbounded-capacity constructor
(`buf_size = 2 ^ 64 - 1`, quantum 4), two successful puts of a `2 ^ 31`-byte
trivial value drive the offset to `2 ^ 32`; `reset()` then subtracts
`getAlignedSize(2 ^ 32) = 0` (the `uint32_t` product wraps), so the offset
stays `2 ^ 32` instead of returning to zero. -/
theorem claim_C9_counterexample :
    (runOps [Op.opScalar (List.replicate (2 ^ 31) 0),
        Op.opScalar (List.replicate (2 ^ 31) 0), Op.opReset]
      (freshContext (2 ^ 64 - 1) 4)).map Context.msg_size = Except.ok (2 ^ 32) ∧
    (2 ^ 32 : Nat) ≠ 0 := by
  constructor
  · rw [runOps_cons, applyOp_scalar_ok (List.replicate (2 ^ 31) 0)
        (freshContext (2 ^ 64 - 1) 4)
        (by rw [List.length_replicate]; decide) (by decide), runOps_bind_ok,
      List.length_replicate]
    rw [show ({ freshContext (2 ^ 64 - 1) 4 with
        mem := writeBytes (freshContext (2 ^ 64 - 1) 4).mem
          (freshContext (2 ^ 64 - 1) 4).msg_size (List.replicate (2 ^ 31) 0),
        msg_size := ((freshContext (2 ^ 64 - 1) 4).msg_size +
          (freshContext (2 ^ 64 - 1) 4).getAlignedSize (2 ^ 31)) % size_t_mod } : Context) =
      (⟨2 ^ 64 - 1, 2 ^ 31, 4,
        writeBytes (List.replicate (2 ^ 64 - 1) 0) 0 (List.replicate (2 ^ 31) 0)⟩ : Context)
      from rfl]
    rw [runOps_cons, applyOp_scalar_ok (List.replicate (2 ^ 31) 0)
        (⟨2 ^ 64 - 1, 2 ^ 31, 4,
          writeBytes (List.replicate (2 ^ 64 - 1) 0) 0 (List.replicate (2 ^ 31) 0)⟩ : Context)
        (by rw [List.length_replicate]; decide) (by decide), runOps_bind_ok,
      List.length_replicate]
    rw [show ({ (⟨2 ^ 64 - 1, 2 ^ 31, 4,
          writeBytes (List.replicate (2 ^ 64 - 1) 0) 0 (List.replicate (2 ^ 31) 0)⟩ :
            Context) with
        mem := writeBytes
          (⟨2 ^ 64 - 1, 2 ^ 31, 4,
            writeBytes (List.replicate (2 ^ 64 - 1) 0) 0 (List.replicate (2 ^ 31) 0)⟩ :
              Context).mem
          (⟨2 ^ 64 - 1, 2 ^ 31, 4,
            writeBytes (List.replicate (2 ^ 64 - 1) 0) 0 (List.replicate (2 ^ 31) 0)⟩ :
              Context).msg_size
          (List.replicate (2 ^ 31) 0),
        msg_size := ((⟨2 ^ 64 - 1, 2 ^ 31, 4,
            writeBytes (List.replicate (2 ^ 64 - 1) 0) 0 (List.replicate (2 ^ 31) 0)⟩ :
              Context).msg_size +
          (⟨2 ^ 64 - 1, 2 ^ 31, 4,
            writeBytes (List.replicate (2 ^ 64 - 1) 0) 0 (List.replicate (2 ^ 31) 0)⟩ :
              Context).getAlignedSize (2 ^ 31)) % size_t_mod } : Context) =
      (⟨2 ^ 64 - 1, 2 ^ 32, 4,
        writeBytes (writeBytes (List.replicate (2 ^ 64 - 1) 0) 0 (List.replicate (2 ^ 31) 0))
          (2 ^ 31) (List.replicate (2 ^ 31) 0)⟩ : Context)
      from rfl]
    rw [runOps_cons]
    rw [show applyOp Op.opReset
        (⟨2 ^ 64 - 1, 2 ^ 32, 4,
          writeBytes (writeBytes (List.replicate (2 ^ 64 - 1) 0) 0 (List.replicate (2 ^ 31) 0))
            (2 ^ 31) (List.replicate (2 ^ 31) 0)⟩ : Context) =
        .ok (⟨2 ^ 64 - 1, 2 ^ 32, 4,
          writeBytes (writeBytes (List.replicate (2 ^ 64 - 1) 0) 0 (List.replicate (2 ^ 31) 0))
            (2 ^ 31) (List.replicate (2 ^ 31) 0)⟩ : Context)
      from rfl]
    rw [runOps_bind_ok]
    rfl
  · decide

end PackBuffer
